import Mathlib

/-!
Verification of the core simulation loop of the flying-horse arcade game
(`src/app/components/FlyingHorseGame.tsx`).

Embedding conventions:
* JavaScript numbers are embedded as `ℚ`.  Every numeric literal appearing in
  the source is an exact decimal, so it is represented exactly in `ℚ`, and all
  arithmetic performed by the simulation (addition, multiplication, min/max,
  comparisons) is exact on the values the claims are about.
* `distance(a, b) < 42` (which calls `Math.hypot`) is embedded as the
  equivalent squared comparison `(a.x-b.x)^2 + (a.y-b.y)^2 < 42^2`; for
  non-negative radii the two are equivalent since `hypot` is the non-negative
  square root and squaring is monotone on non-negative reals.
* `Math.random()` is an external nondeterministic source; it is modelled as an
  oracle producing values in `[0, 1)` (one `Rand4` bundle per orb index for
  the respawn sweep), fed through the source's `randomRange`.
* The in-place mutation of the `horsemenRef` / `orbsRef` arrays is embedded as
  explicit state passing: the per-tick functions take the current lists and
  return the updated ones, preserving the source's sequential mutation order
  (the `forEach` loops run front to back, and later iterations observe the
  mutations made by earlier ones).
-/

namespace FlyingHorse

/-- CANVAS_WIDTH constant (source line 39). -/
def CANVAS_WIDTH : ℚ := 960

/-- CANVAS_HEIGHT constant (source line 40). -/
def CANVAS_HEIGHT : ℚ := 560

/-- HORSEMAN_ACCEL constant (source line 41). -/
def HORSEMAN_ACCEL : ℚ := 0.24

/-- HORSEMAN_FRICTION constant (source line 42). -/
def HORSEMAN_FRICTION : ℚ := 0.985

/-- HORSEMAN_MAX_SPEED constant (source line 43). -/
def HORSEMAN_MAX_SPEED : ℚ := 7.4

/-- ORB_RESPAWN_TIME constant (source line 44). -/
def ORB_RESPAWN_TIME : ℚ := 12000

/-- Embeds the source's `Vector` type (lines 5-8); named `Vec` to avoid the
clash with the library's `Vector`. -/
structure Vec where
  x : ℚ
  y : ℚ
deriving DecidableEq, Repr, Inhabited

/-- Embeds `clamp` (lines 46-48): `Math.min(Math.max(value, min), max)`. -/
def clamp (value lo hi : ℚ) : ℚ := min (max value lo) hi

/-- Embeds `distance` (lines 50-54) squared: `Math.hypot(dx, dy) ^ 2`.  The
source only ever compares `distance` against the pickup radius 42, and
`hypot(dx, dy) < 42 ↔ dx^2 + dy^2 < 42^2`. -/
def distSq (a b : Vec) : ℚ := (a.x - b.x) ^ 2 + (a.y - b.y) ^ 2

/-- Embeds `randomRange` (lines 56-58): `Math.random() * (max - min) + min`,
with `u` the raw `Math.random()` sample (a value in `[0, 1)`). -/
def randomRange (lo hi u : ℚ) : ℚ := u * (hi - lo) + lo

/-- Embeds the `Horseman` record (lines 10-21).  The display-only fields
(`id`, `name`, `color`, `trailColor`, `accent`) never influence the
simulation and are omitted. -/
structure Horseman where
  position : Vec
  velocity : Vec
  targetTilt : ℚ
  tilt : ℚ
  score : ℕ
deriving DecidableEq, Repr, Inhabited

/-- Embeds the `Orb` record (lines 23-29); the display-only `id` field is
omitted. -/
structure Orb where
  position : Vec
  velocity : Vec
  pulse : ℚ
  pulseDir : ℚ
deriving DecidableEq, Repr, Inhabited

/-- Embeds the held-key state read by `updateHorsemen` (lines 257-259):
`pressedKeys.current["arrowright"]` etc. -/
structure Keys where
  arrowright : Bool
  arrowleft : Bool
  arrowdown : Bool
  arrowup : Bool
  space : Bool
  shift : Bool
deriving DecidableEq, Repr, Inhabited

/-- Embeds the steering-input block of `updateHorsemen` (lines 257-270),
applied to the active horseman: `horizontal`/`vertical` are the held-key
differences, `boost` multiplies the base acceleration, the velocity gains the
steering impulse, and `targetTilt` either leans with the input (clamped to
±0.45) or decays by 0.88. -/
def applyActiveInput (keys : Keys) (h : Horseman) : Horseman :=
  let horizontal : ℚ := (if keys.arrowright then 1 else 0) - (if keys.arrowleft then 1 else 0)
  let vertical : ℚ := (if keys.arrowdown then 1 else 0) - (if keys.arrowup then 1 else 0)
  let boost : ℚ := if keys.space || keys.shift then 1.4 else 1
  let acceleration := HORSEMAN_ACCEL * boost
  { h with
    velocity := ⟨h.velocity.x + horizontal * acceleration,
                 h.velocity.y + vertical * acceleration⟩
    targetTilt :=
      if horizontal ≠ 0 ∨ vertical ≠ 0 then
        clamp (h.targetTilt + horizontal * 0.06) (-0.45) 0.45
      else h.targetTilt * 0.88 }

/-- Embeds the flocking block of `updateHorsemen` (lines 275-285) for a
non-active horseman: weak attraction toward the active horseman's position
plus a wander impulse.  `wander` stands for
`Math.sin(performance.now() / 800 + index * 1.3)`, an external input. -/
def flockAgent (activePos : Vec) (wander : ℚ) (h : Horseman) : Horseman :=
  { h with
    velocity := ⟨h.velocity.x + (activePos.x - h.position.x) * 0.0006 + wander * 0.03,
                 h.velocity.y + (activePos.y - h.position.y) * 0.0006⟩
    targetTilt := clamp (wander * 0.4) (-0.45) 0.45 }

/-- Embeds the integration tail of `updateHorsemen` (lines 287-305), run for
every horseman: clamp each velocity component to ±HORSEMAN_MAX_SPEED,
integrate the position by `velocity * (delta / 16)`, apply friction, then for
each axis whose position left the inset bounds reflect the velocity by −0.7
and clamp the position back inside; finally ease `tilt` toward `targetTilt`.
The source applies friction before the boundary test and the boundary test
reads the integrated position; both assignments of each boundary branch are
rendered here as two `if`s with the identical condition. -/
def integrateAgent (delta : ℚ) (h : Horseman) : Horseman :=
  let vx := clamp h.velocity.x (-HORSEMAN_MAX_SPEED) HORSEMAN_MAX_SPEED
  let vy := clamp h.velocity.y (-HORSEMAN_MAX_SPEED) HORSEMAN_MAX_SPEED
  let px := h.position.x + vx * (delta / 16)
  let py := h.position.y + vy * (delta / 16)
  let fx := vx * HORSEMAN_FRICTION
  let fy := vy * HORSEMAN_FRICTION
  { h with
    position :=
      ⟨if px < 40 ∨ px > CANVAS_WIDTH - 40 then clamp px 40 (CANVAS_WIDTH - 40) else px,
       if py < 50 ∨ py > CANVAS_HEIGHT - 100 then clamp py 50 (CANVAS_HEIGHT - 100) else py⟩
    velocity :=
      ⟨if px < 40 ∨ px > CANVAS_WIDTH - 40 then fx * (-0.7) else fx,
       if py < 50 ∨ py > CANVAS_HEIGHT - 100 then fy * (-0.7) else fy⟩
    tilt := h.tilt + (h.targetTilt - h.tilt) * 0.18 }

/-- Embeds one iteration of the `forEach` of `updateHorsemen`
(lines 272-306): the non-active horseman at index `i` receives the flocking
force computed from the active horseman's *current* (possibly already
integrated this tick) position re-read from the accumulator, and the horseman
is then integrated.  The in-place array mutation of the source is embedded by
`List.set`, so later iterations observe earlier mutations exactly as in the
source.  If `activeIdx` is out of range the source throws on
`active.position` before updating anything; that case leaves the list
unchanged here and every claim about `updateHorsemen` assumes a valid index. -/
def stepIndex (delta : ℚ) (activeIdx : ℕ) (wander : ℕ → ℚ)
    (acc : List Horseman) (i : ℕ) : List Horseman :=
  match acc.get? i, acc.get? activeIdx with
  | some h, some act =>
      let h1 := if i ≠ activeIdx then flockAgent act.position (wander i) h else h
      acc.set i (integrateAgent delta h1)
  | _, _ => acc

/-- Embeds `updateHorsemen`'s driver (lines 253-307): the steering input is
applied to the active horseman first, then the `forEach` runs `stepIndex`
over the indices in order. -/
def updateHorsemen (delta : ℚ) (activeIdx : ℕ) (keys : Keys) (wander : ℕ → ℚ)
    (hs : List Horseman) : List Horseman :=
  let hs1 :=
    match hs.get? activeIdx with
    | some a => hs.set activeIdx (applyActiveInput keys a)
    | none => hs
  (List.range hs1.length).foldl (stepIndex delta activeIdx wander) hs1

/-- Embeds the motion, pulse and boundary phase of `updateOrbs`
(lines 311-325), applied to every orb: integrate the position by
`velocity * (delta / 16)`, advance `pulse` and flip `pulseDir` outside
`[0.5, 1.2]`, then negate a velocity component whenever the integrated
position lies outside the band `[50, CANVAS_WIDTH − 50] × [50,
CANVAS_HEIGHT − 50]`.  The position itself is never clamped. -/
def orbMove (delta : ℚ) (orb : Orb) : Orb :=
  let px := orb.position.x + orb.velocity.x * (delta / 16)
  let py := orb.position.y + orb.velocity.y * (delta / 16)
  let pulse := orb.pulse + orb.pulseDir * 0.01
  { position := ⟨px, py⟩
    velocity :=
      ⟨if px < 50 ∨ px > CANVAS_WIDTH - 50 then orb.velocity.x * (-1) else orb.velocity.x,
       if py < 50 ∨ py > CANVAS_HEIGHT - 50 then orb.velocity.y * (-1) else orb.velocity.y⟩
    pulse := pulse
    pulseDir := if pulse < 0.5 ∨ pulse > 1.2 then orb.pulseDir * (-1) else orb.pulseDir }

/-- Embeds the pickup mutation of lines 331-334: the orb is moved to the
sentinel `(-999, -999)` and its velocity zeroed. -/
def collectOrb (orb : Orb) : Orb :=
  { orb with position := ⟨-999, -999⟩, velocity := ⟨0, 0⟩ }

/-- Embeds the inner pickup loop of `updateOrbs` (lines 328-336) for one
horseman: walk the orb list front to back; whenever
`distance(horseman.position, orb.position) < 42` the horseman's score is
incremented and the orb is collected (`collectOrb`).  Later orbs are
examined with the horseman's already-incremented score, exactly as the
in-place mutation does. -/
def collectOrbs (h : Horseman) : List Orb → Horseman × List Orb
  | [] => (h, [])
  | orb :: rest =>
      if distSq h.position orb.position < 42 ^ 2 then
        let h1 : Horseman := { h with score := h.score + 1 }
        let r := collectOrbs h1 rest
        (r.1, collectOrb orb :: r.2)
      else
        let r := collectOrbs h rest
        (r.1, orb :: r.2)

/-- Embeds the outer pickup loop of `updateOrbs` (lines 327-337): the
horsemen are processed front to back, each against the orb list as mutated by
the previous horsemen. -/
def collectPhase : List Horseman → List Orb → List Horseman × List Orb
  | [], orbs => ([], orbs)
  | h :: hs, orbs =>
      let r1 := collectOrbs h orbs
      let r2 := collectPhase hs r1.2
      (r1.1 :: r2.1, r2.2)

/-- Bundle of the four raw `Math.random()` samples consumed when one orb is
respawned (lines 342-349): x and y of the new position, x and y of the new
velocity. -/
structure Rand4 where
  ux : ℚ
  uy : ℚ
  uvx : ℚ
  uvy : ℚ
deriving DecidableEq, Repr, Inhabited

/-- Rand4 samples that all lie in `[0, 1)`, as `Math.random()` guarantees. -/
def unitRand (r : Rand4) : Prop :=
  0 ≤ r.ux ∧ r.ux < 1 ∧ 0 ≤ r.uy ∧ r.uy < 1 ∧
  0 ≤ r.uvx ∧ r.uvx < 1 ∧ 0 ≤ r.uvy ∧ r.uvy < 1

/-- Embeds the body of the respawn sweep (lines 340-351) for one orb: an orb
whose `position.x === -999` gets a fresh random position in
`[80, CANVAS_WIDTH − 80) × [80, CANVAS_HEIGHT − 160)` and a fresh random
velocity in `[-0.5, 0.5) × [-0.4, 0.4)`; other orbs are untouched. -/
def respawnOrb (r : Rand4) (orb : Orb) : Orb :=
  if orb.position.x = -999 then
    { orb with
      position := ⟨randomRange 80 (CANVAS_WIDTH - 80) r.ux,
                   randomRange 80 (CANVAS_HEIGHT - 160) r.uy⟩
      velocity := ⟨randomRange (-0.5) 0.5 r.uvx, randomRange (-0.4) 0.4 r.uvy⟩ }
  else orb

/-- Embeds the `orbs.forEach` of the respawn sweep (lines 340-351), with `i`
the index of the first orb of the list (the sweep is started at `i = 0`);
each orb consumes its own `Rand4` bundle from the oracle. -/
def respawnSweep (rand : ℕ → Rand4) (i : ℕ) : List Orb → List Orb
  | [] => []
  | orb :: rest => respawnOrb (rand i) orb :: respawnSweep rand (i + 1) rest

/-- Embeds `updateOrbs` (lines 309-354) including its respawn-timer protocol:
`orbTimer` is the timer value already accumulated by `step` for this tick
(line 185: `orbTimer += delta` happens before the call); the function moves
every orb, runs the pickup loops, and if `orbTimer > ORB_RESPAWN_TIME`
respawns every collected orb and resets the timer to 0 (the `onRespawn`
callback, lines 191-193).  Returns (updated horsemen, updated orbs, new
timer). -/
def updateOrbs (delta orbTimer : ℚ) (hs : List Horseman) (orbs : List Orb)
    (rand : ℕ → Rand4) : List Horseman × List Orb × ℚ :=
  let orbs1 := orbs.map (orbMove delta)
  let r := collectPhase hs orbs1
  if orbTimer > ORB_RESPAWN_TIME then
    (r.1, respawnSweep rand 0 r.2, 0)
  else
    (r.1, r.2, orbTimer)

/-- Inputs of one orb tick, used to iterate `updateOrbs` over several ticks:
the frame delta, the accumulated respawn timer at that tick, the horsemen
list of that tick and the random oracle of that tick. -/
structure TickIn where
  delta : ℚ
  orbTimer : ℚ
  horsemen : List Horseman
  rand : ℕ → Rand4

/-- Iterates the orb part of successive ticks of `step`. -/
def runOrbTicks (ticks : List TickIn) (orbs : List Orb) : List Orb :=
  ticks.foldl (fun os t => (updateOrbs t.delta t.orbTimer t.horsemen os t.rand).2.1) orbs

/-- Playfield inset bounds that `updateHorsemen` clamps every horseman into
(lines 296-303): `[40, CANVAS_WIDTH − 40] × [50, CANVAS_HEIGHT − 100]`. -/
def inBounds (p : Vec) : Prop := 40 ≤ p.x ∧ p.x ≤ 920 ∧ 50 ≤ p.y ∧ p.y ≤ 460

instance (p : Vec) : Decidable (inBounds p) := by unfold inBounds; infer_instance

/-- Sum of all horsemen scores. -/
def sumScores (hs : List Horseman) : ℕ := (hs.map Horseman.score).sum

/-- Number of orbs currently in the collected state, i.e. whose sentinel test
`position.x === -999` (lines 341 and 421) holds. -/
def countCollected (orbs : List Orb) : ℕ :=
  orbs.countP (fun o => decide (o.position.x = -999))

/-- Events performed by one invocation of `step` (lines 181-199) and the
helpers it calls, in program order.  `moveCloud i` / `drawCloud i` are the
mutation and the painting of cloud `i` inside `updateClouds` (lines 211-234),
which handles each cloud's motion and drawing in the same loop iteration.
`updateHorsemenEv` covers lines 253-307 (which also samples the held-key
state once) and `updateOrbsEv` lines 309-354. -/
inductive StepEvent where
  | clearRect
  | drawBackground
  | moveCloud (i : ℕ)
  | drawCloud (i : ℕ)
  | updateHorsemenEv
  | updateOrbsEv
  | drawHorsemen
  | drawOrbs
  | drawUI
deriving DecidableEq, Repr

/-- Event sequence of `updateClouds` (lines 211-234): for each cloud in
order, move it, then paint it. -/
def cloudEvents : ℕ → List StepEvent
  | 0 => []
  | n + 1 => cloudEvents n ++ [StepEvent.moveCloud n, StepEvent.drawCloud n]

/-- Event sequence of one `step` invocation (lines 187-196): clear, paint the
background, run `updateClouds` (interleaving cloud motion and cloud
painting), update the horsemen, update the orbs, then paint horsemen, orbs
and the HUD. -/
def stepTrace (numClouds : ℕ) : List StepEvent :=
  [StepEvent.clearRect, StepEvent.drawBackground] ++ cloudEvents numClouds ++
  [StepEvent.updateHorsemenEv, StepEvent.updateOrbsEv,
   StepEvent.drawHorsemen, StepEvent.drawOrbs, StepEvent.drawUI]

/-- Events that mutate simulation state (agent, orb or cloud state). -/
def isPhysicsEvent : StepEvent → Bool
  | StepEvent.moveCloud _ => true
  | StepEvent.updateHorsemenEv => true
  | StepEvent.updateOrbsEv => true
  | _ => false

/-- Events that paint onto the canvas. -/
def isRenderEvent : StepEvent → Bool
  | StepEvent.clearRect => true
  | StepEvent.drawBackground => true
  | StepEvent.drawCloud _ => true
  | StepEvent.drawHorsemen => true
  | StepEvent.drawOrbs => true
  | StepEvent.drawUI => true
  | _ => false

/-- Statement of claim C4 on the step trace with the source's 12 clouds
(line 132): every state mutation precedes every rendering event within a
tick. -/
def physicsBeforeRenderAll : Prop :=
  ∀ i j : Fin (stepTrace 12).length,
    isPhysicsEvent ((stepTrace 12).get i) = true →
    isRenderEvent ((stepTrace 12).get j) = true →
    (i : ℕ) < (j : ℕ)

/-- Time bookkeeping owned by the game-loop effect (lines 171-209):
`lastTime` is the timestamp of the previous frame, `orbTimer` the respawn
accumulator, and `scheduled` whether an animation frame is currently
requested. -/
structure LoopState where
  lastTime : ℚ
  orbTimer : ℚ
  scheduled : Bool
deriving DecidableEq, Repr, Inhabited

/-- Embeds the initialization of the game-loop effect (lines 178-179, 201):
`lastTime = performance.now()`, `orbTimer = 0`, and an animation frame is
requested. -/
def loopEffectInit (now : ℚ) : LoopState :=
  { lastTime := now, orbTimer := 0, scheduled := true }

/-- Embeds the effect of a controlled-agent switch on the loop state.  The
game-loop effect lists `activeHorseman` in its dependency array (line 209),
so when a digit key press changes `activeHorseman` (lines 148-151) the effect
is cleaned up (`cancelAnimationFrame`, lines 203-207) and its body re-runs:
the local `lastTime` and `orbTimer` variables are re-created with
`performance.now()` and `0`, and a fresh animation frame is requested.  `now`
is the wall-clock time at which the effect re-runs. -/
def switchActiveLoop (now : ℚ) (_s : LoopState) : LoopState :=
  loopEffectInit now

/-- Statement of claim C5 on the loop state: switching the controlled agent
carries the respawn timer and the previous-frame timestamp over unchanged. -/
def switchCarriesTimers : Prop :=
  ∀ (now : ℚ) (s : LoopState),
    (switchActiveLoop now s).orbTimer = s.orbTimer ∧
    (switchActiveLoop now s).lastTime = s.lastTime

/-- Key state with only the right arrow held (claim C7's scenario). -/
def rightOnly : Keys :=
  { arrowright := true, arrowleft := false, arrowdown := false, arrowup := false,
    space := false, shift := false }

/-- Key state with nothing held. -/
def noKeys : Keys :=
  { arrowright := false, arrowleft := false, arrowdown := false, arrowup := false,
    space := false, shift := false }

/-- The controlled agent of claim C7's scenario: position (500, 280), zero
velocity. -/
def horse0 : Horseman :=
  { position := ⟨500, 280⟩, velocity := ⟨0, 0⟩, targetTilt := 0, tilt := 0, score := 0 }

/-- One tick of `updateHorsemen` as experienced by the active horseman:
steering input followed by integration (the active horseman receives no
flocking force). -/
def tickActive (delta : ℚ) (keys : Keys) (h : Horseman) : Horseman :=
  integrateAgent delta (applyActiveInput keys h)

/-- Trajectory of claim C7's scenario: the single controlled agent `horse0`,
right arrow held, `updateHorsemen` iterated at delta = 16 ms. -/
def rightSeq (n : ℕ) : Horseman :=
  ((fun hs => updateHorsemen 16 0 rightOnly (fun _ => 0) hs)^[n] [horse0]).headI

/-- A freshly spawnable orb used for claim C9: position (80, 300) and
velocity (−0.5, 0) are producible by the respawn sweep with all four raw
random samples equal to 0 (`randomRange 80 _ 0 = 80`,
`randomRange (-0.5) 0.5 0 = -0.5`), pulse 0.8 and pulseDir 1 are in the
initial pulse range of lines 128-129. -/
def escapeOrb0 : Orb := { position := ⟨80, 300⟩, velocity := ⟨-0.5, 0⟩, pulse := 0.8, pulseDir := 1 }

/-- The C9 orb after one stalled tick of 976 ms (61 reference frames of
drift, e.g. a briefly frozen tab): starting from the spawnable `escapeOrb0`
it has drifted left past the playfield band. -/
def escapeOrbOut : Orb := orbMove 976 escapeOrb0

/-- An orb in the collected state (sentinel position, zero velocity), used as
concrete input in witnesses. -/
def collectedOrb : Orb :=
  { position := ⟨-999, -999⟩, velocity := ⟨0, 0⟩, pulse := 0.7, pulseDir := 1 }

/-- A horseman inside the playfield, used as concrete input in witnesses. -/
def testHorseman : Horseman :=
  { position := ⟨500, 300⟩, velocity := ⟨3, -2⟩, targetTilt := 0, tilt := 0, score := 0 }

/-- A horseman whose position is outside the playfield and whose speed is
above the maximum, used as concrete input in witnesses. -/
def wildHorseman : Horseman :=
  { position := ⟨-5, 1000⟩, velocity := ⟨100, -50⟩, targetTilt := 0, tilt := 0, score := 0 }

/-- An uncollected orb sitting on `testHorseman`, used in witnesses. -/
def nearOrb : Orb :=
  { position := ⟨500, 300⟩, velocity := ⟨0.2, 0.1⟩, pulse := 0.9, pulseDir := 1 }

/-- A fixed random bundle with all samples 0.5, used in witnesses. -/
def halfRand : Rand4 := { ux := 0.5, uy := 0.5, uvx := 0.5, uvy := 0.5 }

/-- A tick whose respawn timer is still far from the threshold, used in the
C8 witness. -/
def quietTick : TickIn :=
  { delta := 16, orbTimer := 100, horsemen := [testHorseman], rand := fun _ => halfRand }

/-- Helper: `clamp` lands in `[lo, hi]` whenever `lo ≤ hi`. -/
theorem clamp_mem (x lo hi : ℚ) (h : lo ≤ hi) :
    lo ≤ clamp x lo hi ∧ clamp x lo hi ≤ hi :=
  ⟨le_min (le_max_right x lo) h, min_le_right _ _⟩

/-- Helper: clamping into a symmetric interval bounds the absolute value. -/
theorem clamp_abs_le (x m : ℚ) (hm : 0 ≤ m) : |clamp x (-m) m| ≤ m := by
  rcases clamp_mem x (-m) m (by linarith) with ⟨h1, h2⟩
  exact abs_le.mpr ⟨h1, h2⟩

/-- C10: the clamp operation is idempotent: for every value `x` and every
pair of bounds `lo`, `hi`, `clamp (clamp x lo hi) lo hi = clamp x lo hi`
(with no assumption that `lo ≤ hi`). -/
theorem clamp_idempotent (x lo hi : ℚ) :
    clamp (clamp x lo hi) lo hi = clamp x lo hi := by
  unfold clamp
  rcases le_total (max x lo) hi with h | h
  · rw [min_eq_left h, max_eq_left (le_max_right x lo), min_eq_left h]
  · rw [min_eq_right h, min_eq_right (le_max_left hi lo)]

/-- C4 counterexample: the claim that within a tick every state mutation
(agent, orb and cloud) runs before any rendering is false for `step`:
`drawBackground` is the trace entry at index 1 while `updateHorsemen` only
runs at index 26, and the cloud layer interleaves each cloud's motion with
its painting. -/
theorem physics_before_render_false : ¬ physicsBeforeRenderAll := by
  unfold physicsBeforeRenderAll
  decide

/-- C4 amended: within a tick, the agent physics (`updateHorsemen`, which
also samples the held-key state once) and the orb physics (`updateOrbs`) both
run before the horsemen, the orbs and the HUD are painted, and each cloud's
motion update precedes that cloud's painting; the background and the cloud
layer, however, are painted before the agent and orb physics run. -/
theorem entity_update_before_entity_draw :
    (∀ i j : Fin (stepTrace 12).length,
      ((stepTrace 12).get i = StepEvent.updateHorsemenEv ∨
       (stepTrace 12).get i = StepEvent.updateOrbsEv) →
      ((stepTrace 12).get j = StepEvent.drawHorsemen ∨
       (stepTrace 12).get j = StepEvent.drawOrbs ∨
       (stepTrace 12).get j = StepEvent.drawUI) →
      (i : ℕ) < (j : ℕ)) ∧
    (∀ k : Fin 12, ∀ i j : Fin (stepTrace 12).length,
      (stepTrace 12).get i = StepEvent.moveCloud (k : ℕ) →
      (stepTrace 12).get j = StepEvent.drawCloud (k : ℕ) →
      (i : ℕ) < (j : ℕ)) := by
  decide

/-- C4 amended witness: the agent update (index 26) precedes the horsemen
painting (index 28), and cloud 0's motion (index 2) precedes its painting
(index 3). -/
theorem entity_update_before_entity_draw_witness : (26 : ℕ) < 28 ∧ (2 : ℕ) < 3 :=
  ⟨entity_update_before_entity_draw.1 ⟨26, by decide⟩ ⟨28, by decide⟩
      (by decide) (by decide),
   entity_update_before_entity_draw.2 ⟨0, by decide⟩ ⟨2, by decide⟩ ⟨3, by decide⟩
      (by decide) (by decide)⟩

/-- C5 counterexample: switching the controlled agent does not carry the
loop's timers over: with an accumulated respawn timer of 5000 ms and a
previous-frame timestamp of 1000, a switch at wall-clock time 2000 yields a
respawn timer of 0, not 5000, because the loop effect depends on
`activeHorseman` and re-runs from scratch. -/
theorem switch_carries_timers_false : ¬ switchCarriesTimers := by
  intro hc
  have h := (hc 2000 ⟨1000, 5000, true⟩).1
  norm_num [switchActiveLoop, loopEffectInit] at h

/-- C5 amended: switching the controlled-agent index tears down and re-runs
the game-loop effect (its dependency array contains `activeHorseman`), so
ticks continue — a fresh animation frame is scheduled — but the accumulated
respawn timer is reset to 0 and the previous-frame timestamp is re-baselined
to the time of the switch rather than carried over. -/
theorem switch_reinitializes_loop (now : ℚ) (s : LoopState) :
    (switchActiveLoop now s).orbTimer = 0 ∧
    (switchActiveLoop now s).lastTime = now ∧
    (switchActiveLoop now s).scheduled = true :=
  ⟨rfl, rfl, rfl⟩

/-- C9: orb positions are never clamped back inside the playfield — the
integrated position is returned unchanged — and the boundary rule negates a
velocity component exactly when the integrated position lies outside the band
`[50, 910] × [50, 510]`, regardless of the velocity's direction.
Consequently the spawnable orb `escapeOrb0` lies outside the band after one
stalled 976 ms tick (position.x = 49.5 < 50 with velocity.x = 0.5 pointing
back inside), and one further 8 ms tick, still outside the band, flips that
inward velocity to point outward again (velocity.x = −0.5). -/
theorem orb_boundary_no_clamp :
    (∀ (delta : ℚ) (orb : Orb),
      (orbMove delta orb).position.x = orb.position.x + orb.velocity.x * (delta / 16) ∧
      (orbMove delta orb).position.y = orb.position.y + orb.velocity.y * (delta / 16) ∧
      (orbMove delta orb).velocity.x =
        (if orb.position.x + orb.velocity.x * (delta / 16) < 50 ∨
            orb.position.x + orb.velocity.x * (delta / 16) > 910
         then orb.velocity.x * (-1) else orb.velocity.x) ∧
      (orbMove delta orb).velocity.y =
        (if orb.position.y + orb.velocity.y * (delta / 16) < 50 ∨
            orb.position.y + orb.velocity.y * (delta / 16) > 510
         then orb.velocity.y * (-1) else orb.velocity.y)) ∧
    (escapeOrbOut.position.x = 49.5 ∧ escapeOrbOut.position.x < 50 ∧
      escapeOrbOut.velocity.x = 0.5) ∧
    ((orbMove 8 escapeOrbOut).position.x = 49.75 ∧
      (orbMove 8 escapeOrbOut).position.x < 50 ∧
      (orbMove 8 escapeOrbOut).velocity.x = -0.5) := by
  refine ⟨fun delta orb => ?_,
    by norm_num [escapeOrbOut, escapeOrb0, orbMove, CANVAS_WIDTH, CANVAS_HEIGHT],
    by norm_num [escapeOrbOut, escapeOrb0, orbMove, CANVAS_WIDTH, CANVAS_HEIGHT]⟩
  unfold orbMove CANVAS_WIDTH CANVAS_HEIGHT
  norm_num

/-- Helper: the position produced by `integrateAgent` lies in the inset
bounds, whatever the input state. -/
theorem integrateAgent_pos_mem (delta : ℚ) (h : Horseman) :
    inBounds (integrateAgent delta h).position := by
  unfold integrateAgent inBounds CANVAS_WIDTH CANVAS_HEIGHT
  norm_num
  refine ⟨?_, ?_, ?_, ?_⟩
  · split_ifs with hc
    · exact (clamp_mem _ 40 920 (by norm_num)).1
    · push_neg at hc
      exact hc.1
  · split_ifs with hc
    · exact (clamp_mem _ 40 920 (by norm_num)).2
    · push_neg at hc
      exact hc.2
  · split_ifs with hc
    · exact (clamp_mem _ 50 460 (by norm_num)).1
    · push_neg at hc
      exact hc.1
  · split_ifs with hc
    · exact (clamp_mem _ 50 460 (by norm_num)).2
    · push_neg at hc
      exact hc.2

/-- Helper: both velocity components produced by `integrateAgent` have
magnitude at most `HORSEMAN_MAX_SPEED`, whatever the input state: the
velocity is clamped to `±7.4` before integration and the later friction
(×0.985) and reflection (×−0.7) factors have magnitude below 1. -/
theorem integrateAgent_vel_bound (delta : ℚ) (h : Horseman) :
    |(integrateAgent delta h).velocity.x| ≤ 7.4 ∧
    |(integrateAgent delta h).velocity.y| ≤ 7.4 := by
  unfold integrateAgent HORSEMAN_MAX_SPEED HORSEMAN_FRICTION CANVAS_WIDTH CANVAS_HEIGHT
  norm_num
  have hx := clamp_abs_le h.velocity.x (37/5) (by norm_num)
  have hy := clamp_abs_le h.velocity.y (37/5) (by norm_num)
  constructor
  · split_ifs with hc
    · rw [abs_neg, abs_mul, abs_mul,
        abs_of_nonneg (by norm_num : (0:ℚ) ≤ 197/200),
        abs_of_nonneg (by norm_num : (0:ℚ) ≤ 7/10)]
      linarith
    · rw [abs_mul, abs_of_nonneg (by norm_num : (0:ℚ) ≤ 197/200)]
      linarith
  · split_ifs with hc
    · rw [abs_neg, abs_mul, abs_mul,
        abs_of_nonneg (by norm_num : (0:ℚ) ≤ 197/200),
        abs_of_nonneg (by norm_num : (0:ℚ) ≤ 7/10)]
      linarith
    · rw [abs_mul, abs_of_nonneg (by norm_num : (0:ℚ) ≤ 197/200)]
      linarith

/-- Helper: `stepIndex` preserves the list length. -/
theorem stepIndex_length (delta : ℚ) (activeIdx : ℕ) (wander : ℕ → ℚ)
    (acc : List Horseman) (i : ℕ) :
    (stepIndex delta activeIdx wander acc i).length = acc.length := by
  unfold stepIndex
  split
  · exact List.length_set acc _ _
  · rfl

/-- Helper: `stepIndex` at index `i` leaves every other index unchanged. -/
theorem stepIndex_get_ne (delta : ℚ) (activeIdx : ℕ) (wander : ℕ → ℚ)
    (acc : List Horseman) (i j : ℕ) (hij : i ≠ j) :
    (stepIndex delta activeIdx wander acc i).get? j = acc.get? j := by
  unfold stepIndex
  split
  · exact List.get?_set_ne _ _ hij
  · rfl

/-- Helper: with both `i` and `activeIdx` in range, `stepIndex` writes an
integrated horseman at index `i`. -/
theorem stepIndex_get_eq (delta : ℚ) (activeIdx : ℕ) (wander : ℕ → ℚ)
    (acc : List Horseman) (i : ℕ) (hi : i < acc.length) (ha : activeIdx < acc.length) :
    ∃ pre, (stepIndex delta activeIdx wander acc i).get? i =
      some (integrateAgent delta pre) := by
  have hgi : acc.get? i = some (acc.get ⟨i, hi⟩) := List.get?_eq_get hi
  have hga : acc.get? activeIdx = some (acc.get ⟨activeIdx, ha⟩) := List.get?_eq_get ha
  refine ⟨if i ≠ activeIdx then
      flockAgent (acc.get ⟨activeIdx, ha⟩).position (wander i) (acc.get ⟨i, hi⟩)
    else acc.get ⟨i, hi⟩, ?_⟩
  unfold stepIndex
  rw [hgi, hga]
  exact List.get?_set_eq_of_lt _ (by simpa using hi)

/-- Helper: folding `stepIndex` over any index list preserves the length. -/
theorem foldSteps_length (delta : ℚ) (activeIdx : ℕ) (wander : ℕ → ℚ) :
    ∀ (idxs : List ℕ) (acc : List Horseman),
      (idxs.foldl (stepIndex delta activeIdx wander) acc).length = acc.length := by
  intro idxs
  induction idxs with
  | nil => intro acc; rfl
  | cons i rest ih =>
      intro acc
      rw [List.foldl_cons, ih, stepIndex_length]

/-- Helper: after folding `stepIndex` over the indices `0..k-1`, every index
below `k` holds an integrated horseman. -/
theorem foldRange_spec (delta : ℚ) (activeIdx : ℕ) (wander : ℕ → ℚ) :
    ∀ (k : ℕ) (acc : List Horseman), activeIdx < acc.length →
      ∀ j, j < k → j < acc.length →
        ∃ pre, ((List.range k).foldl (stepIndex delta activeIdx wander) acc).get? j =
          some (integrateAgent delta pre) := by
  intro k
  induction k with
  | zero =>
      intro acc _ j hj _
      exact absurd hj (Nat.not_lt_zero j)
  | succ k ih =>
      intro acc ha j hj hjacc
      rw [List.range_succ, List.foldl_append, List.foldl_cons, List.foldl_nil]
      have hmidlen : ((List.range k).foldl (stepIndex delta activeIdx wander) acc).length
          = acc.length := foldSteps_length delta activeIdx wander _ acc
      by_cases hjk : j = k
      · subst hjk
        exact stepIndex_get_eq delta activeIdx wander _ j
          (by rw [hmidlen]; exact hjacc) (by rw [hmidlen]; exact ha)
      · have hj' : j < k := by omega
        obtain ⟨pre, hpre⟩ := ih acc ha j hj' hjacc
        refine ⟨pre, ?_⟩
        rw [stepIndex_get_ne delta activeIdx wander _ k j (by omega)]
        exact hpre

/-- Helper: `updateHorsemen` preserves the number of horsemen. -/
theorem updateHorsemen_length (delta : ℚ) (activeIdx : ℕ) (keys : Keys)
    (wander : ℕ → ℚ) (hs : List Horseman) :
    (updateHorsemen delta activeIdx keys wander hs).length = hs.length := by
  unfold updateHorsemen
  split
  · rw [foldSteps_length, List.length_set]
  · rw [foldSteps_length]

/-- Helper: with a valid active index, every horseman output by
`updateHorsemen` is the output of `integrateAgent` on some intermediate
state. -/
theorem updateHorsemen_integrated (delta : ℚ) (activeIdx : ℕ) (keys : Keys)
    (wander : ℕ → ℚ) (hs : List Horseman) (hact : activeIdx < hs.length) :
    ∀ h1 ∈ updateHorsemen delta activeIdx keys wander hs,
      ∃ pre, h1 = integrateAgent delta pre := by
  intro h1 hmem
  have hsome : hs.get? activeIdx = some (hs.get ⟨activeIdx, hact⟩) := List.get?_eq_get hact
  unfold updateHorsemen at hmem
  rw [hsome] at hmem
  dsimp only at hmem
  set hs1 := hs.set activeIdx (applyActiveInput keys (hs.get ⟨activeIdx, hact⟩)) with hhs1
  have ha1 : activeIdx < hs1.length := by rw [hhs1, List.length_set]; exact hact
  obtain ⟨n, hn⟩ := List.mem_iff_get?.mp hmem
  have hnlt : n < hs1.length := by
    by_contra hge
    have : ((List.range hs1.length).foldl (stepIndex delta activeIdx wander) hs1).get? n
        = none := by
      apply List.get?_eq_none.mpr
      rw [foldSteps_length]
      omega
    rw [this] at hn
    exact Option.noConfusion hn
  obtain ⟨pre, hpre⟩ := foldRange_spec delta activeIdx wander hs1.length hs1 ha1 n hnlt hnlt
  rw [hpre] at hn
  exact ⟨pre, (Option.some.inj hn).symm⟩

/-- C1: for every tick of the physics step (any delta, key state, wander
input and valid active index), after `updateHorsemen` every horseman's
position lies within the playfield's inset bounds: `position.x ∈ [40, 920]`
(canvas width 960 minus the 40-unit margin) and `position.y ∈ [50, 460]`
(canvas height 560 minus the 100-unit bottom margin) — no agent ever escapes
the inset rectangle, whatever state it started the tick in. -/
theorem horsemen_position_inBounds (delta : ℚ) (activeIdx : ℕ) (keys : Keys)
    (wander : ℕ → ℚ) (hs : List Horseman) (hact : activeIdx < hs.length) :
    ∀ h1 ∈ updateHorsemen delta activeIdx keys wander hs,
      40 ≤ h1.position.x ∧ h1.position.x ≤ 920 ∧
      50 ≤ h1.position.y ∧ h1.position.y ≤ 460 := by
  intro h1 hmem
  obtain ⟨pre, rfl⟩ := updateHorsemen_integrated delta activeIdx keys wander hs hact h1 hmem
  exact integrateAgent_pos_mem delta pre

/-- C1 witness: one tick on a horseman that starts outside the bounds at
(−5, 1000) with velocity (100, −50) ends inside the inset rectangle. -/
theorem horsemen_position_inBounds_witness :
    40 ≤ (updateHorsemen 16 0 noKeys (fun _ => 0) [wildHorseman]).headI.position.x ∧
    (updateHorsemen 16 0 noKeys (fun _ => 0) [wildHorseman]).headI.position.x ≤ 920 ∧
    50 ≤ (updateHorsemen 16 0 noKeys (fun _ => 0) [wildHorseman]).headI.position.y ∧
    (updateHorsemen 16 0 noKeys (fun _ => 0) [wildHorseman]).headI.position.y ≤ 460 :=
  horsemen_position_inBounds 16 0 noKeys (fun _ => 0) [wildHorseman] (by norm_num) _
    (by
      have hlen : (updateHorsemen 16 0 noKeys (fun _ => 0) [wildHorseman]).length = 1 := by
        rw [updateHorsemen_length]
        rfl
      rcases hl : updateHorsemen 16 0 noKeys (fun _ => 0) [wildHorseman] with _ | ⟨a, l⟩
      · rw [hl] at hlen
        exact absurd hlen (by simp)
      · simp [List.headI])

/-- C6: for every tick of the physics step (any delta, key state, wander
input and valid active index) and every horseman, each velocity component has
magnitude at most the configured max speed 7.4 after the tick: the clamp to
±7.4 runs before integration and the subsequent friction (×0.985) and
boundary reflection (×−0.7) only shrink the magnitude. -/
theorem horsemen_speed_le_max (delta : ℚ) (activeIdx : ℕ) (keys : Keys)
    (wander : ℕ → ℚ) (hs : List Horseman) (hact : activeIdx < hs.length) :
    ∀ h1 ∈ updateHorsemen delta activeIdx keys wander hs,
      |h1.velocity.x| ≤ 7.4 ∧ |h1.velocity.y| ≤ 7.4 := by
  intro h1 hmem
  obtain ⟨pre, rfl⟩ := updateHorsemen_integrated delta activeIdx keys wander hs hact h1 hmem
  exact integrateAgent_vel_bound delta pre

/-- C6 witness: one tick on a horseman whose speed starts at (100, −50) ends
with both velocity components at magnitude ≤ 7.4. -/
theorem horsemen_speed_le_max_witness :
    |(updateHorsemen 16 0 noKeys (fun _ => 0) [wildHorseman]).headI.velocity.x| ≤ 7.4 ∧
    |(updateHorsemen 16 0 noKeys (fun _ => 0) [wildHorseman]).headI.velocity.y| ≤ 7.4 :=
  horsemen_speed_le_max 16 0 noKeys (fun _ => 0) [wildHorseman] (by norm_num) _
    (by
      have hlen : (updateHorsemen 16 0 noKeys (fun _ => 0) [wildHorseman]).length = 1 := by
        rw [updateHorsemen_length]
        rfl
      rcases hl : updateHorsemen 16 0 noKeys (fun _ => 0) [wildHorseman] with _ | ⟨a, l⟩
      · rw [hl] at hlen
        exact absurd hlen (by simp)
      · simp [List.headI])

/-- Helper: an orb parked at the sentinel with zero velocity is left exactly
there by the motion/boundary phase: the position gains `0 * (delta/16)` and
the boundary rule multiplies the zero velocity by −1. -/
theorem orbMove_sentinel (delta : ℚ) (o : Orb)
    (hpos : o.position = ⟨-999, -999⟩) (hvel : o.velocity = ⟨0, 0⟩) :
    (orbMove delta o).position = ⟨-999, -999⟩ ∧ (orbMove delta o).velocity = ⟨0, 0⟩ := by
  unfold orbMove
  rw [hpos, hvel]
  norm_num [CANVAS_WIDTH, CANVAS_HEIGHT]

/-- Helper: the pickup loop of a single horseman keeps a sentinel-parked orb
at the sentinel with zero velocity: a pickup (were one to happen) rewrites
exactly those values, and a non-pickup leaves the orb alone. -/
theorem collectOrbs_keepSentinel :
    ∀ (orbs : List Orb) (h : Horseman) (j : ℕ) (o : Orb),
      orbs.get? j = some o → o.position = ⟨-999, -999⟩ → o.velocity = ⟨0, 0⟩ →
      ∃ o1, (collectOrbs h orbs).2.get? j = some o1 ∧
        o1.position = ⟨-999, -999⟩ ∧ o1.velocity = ⟨0, 0⟩ := by
  intro orbs
  induction orbs with
  | nil =>
      intro h j o hj _ _
      simp at hj
  | cons orb rest ih =>
      intro h j o hj hpos hvel
      simp only [collectOrbs]
      by_cases hd : distSq h.position orb.position < 42 ^ 2
      · rw [if_pos hd]
        dsimp only
        cases j with
        | zero =>
            exact ⟨collectOrb orb, rfl, rfl, rfl⟩
        | succ j =>
            simp only [List.get?] at hj
            obtain ⟨o1, ho1, hp1, hv1⟩ := ih { h with score := h.score + 1 } j o hj hpos hvel
            exact ⟨o1, ho1, hp1, hv1⟩
      · rw [if_neg hd]
        dsimp only
        cases j with
        | zero =>
            simp only [List.get?] at hj
            obtain rfl := Option.some.inj hj
            exact ⟨orb, rfl, hpos, hvel⟩
        | succ j =>
            simp only [List.get?] at hj
            obtain ⟨o1, ho1, hp1, hv1⟩ := ih h j o hj hpos hvel
            exact ⟨o1, ho1, hp1, hv1⟩

/-- Helper: the whole pickup phase keeps a sentinel-parked orb at the
sentinel with zero velocity, whatever the horsemen are. -/
theorem collectPhase_keepSentinel :
    ∀ (hs : List Horseman) (orbs : List Orb) (j : ℕ) (o : Orb),
      orbs.get? j = some o → o.position = ⟨-999, -999⟩ → o.velocity = ⟨0, 0⟩ →
      ∃ o1, (collectPhase hs orbs).2.get? j = some o1 ∧
        o1.position = ⟨-999, -999⟩ ∧ o1.velocity = ⟨0, 0⟩ := by
  intro hs
  induction hs with
  | nil =>
      intro orbs j o hj hpos hvel
      exact ⟨o, hj, hpos, hvel⟩
  | cons h rest ih =>
      intro orbs j o hj hpos hvel
      simp only [collectPhase]
      obtain ⟨o1, ho1, hp1, hv1⟩ := collectOrbs_keepSentinel orbs h j o hj hpos hvel
      exact ih (collectOrbs h orbs).2 j o1 ho1 hp1 hv1

/-- Helper: one quiet tick of `updateOrbs` (timer at most the threshold, so
no respawn sweep) keeps a sentinel-parked orb at the sentinel with zero
velocity. -/
theorem updateOrbs_sentinel_tick (delta orbTimer : ℚ) (hs : List Horseman)
    (orbs : List Orb) (rand : ℕ → Rand4) (ht : orbTimer ≤ ORB_RESPAWN_TIME)
    (j : ℕ) (o : Orb) (hj : orbs.get? j = some o)
    (hpos : o.position = ⟨-999, -999⟩) (hvel : o.velocity = ⟨0, 0⟩) :
    ∃ o1, (updateOrbs delta orbTimer hs orbs rand).2.1.get? j = some o1 ∧
      o1.position = ⟨-999, -999⟩ ∧ o1.velocity = ⟨0, 0⟩ := by
  unfold updateOrbs
  rw [if_neg (by linarith : ¬ orbTimer > ORB_RESPAWN_TIME)]
  dsimp only
  have h1 : (orbs.map (orbMove delta)).get? j = some (orbMove delta o) := by
    rw [List.get?_map, hj]
    rfl
  obtain ⟨hp1, hv1⟩ := orbMove_sentinel delta o hpos hvel
  exact collectPhase_keepSentinel hs _ j _ h1 hp1 hv1

/-- Helper: a sentinel-parked orb survives any run of quiet ticks (all
respawn timers at or below the threshold) unchanged in position and
velocity. -/
theorem runOrbTicks_keepSentinel :
    ∀ (ticks : List TickIn), (∀ t ∈ ticks, t.orbTimer ≤ ORB_RESPAWN_TIME) →
      ∀ (orbs : List Orb) (j : ℕ) (o : Orb), orbs.get? j = some o →
        o.position = ⟨-999, -999⟩ → o.velocity = ⟨0, 0⟩ →
        ∃ o1, (runOrbTicks ticks orbs).get? j = some o1 ∧
          o1.position = ⟨-999, -999⟩ ∧ o1.velocity = ⟨0, 0⟩ := by
  intro ticks
  induction ticks with
  | nil =>
      intro _ orbs j o hj hpos hvel
      exact ⟨o, hj, hpos, hvel⟩
  | cons t rest ih =>
      intro hT orbs j o hj hpos hvel
      obtain ⟨o1, ho1, hp1, hv1⟩ := updateOrbs_sentinel_tick t.delta t.orbTimer t.horsemen
        orbs t.rand (hT t (List.mem_cons_self t rest)) j o hj hpos hvel
      exact ih (fun t1 ht1 => hT t1 (List.mem_cons_of_mem t ht1)) _ j o1 ho1 hp1 hv1

/-- C8: once an orb is collected — parked at the sentinel (−999, −999) with
velocity (0, 0) — it stays exactly there on every subsequent tick whose
respawn timer stays at or below the threshold (i.e. until the next respawn
sweep reassigns it), whatever the frame deltas, horsemen, and random oracles
of those ticks are.  Positions are compared by exact rational equality, so
the exact-equality sentinel tests of the respawn sweep
(`position.x === -999`, line 341) and of the renderer's skip of collected
orbs (line 421) are reliable. -/
theorem collected_orb_stays_collected (ticks : List TickIn)
    (hT : ∀ t ∈ ticks, t.orbTimer ≤ ORB_RESPAWN_TIME)
    (orbs : List Orb) (j : ℕ) (o : Orb) (hj : orbs.get? j = some o)
    (hpos : o.position = ⟨-999, -999⟩) (hvel : o.velocity = ⟨0, 0⟩) :
    ∃ o1, (runOrbTicks ticks orbs).get? j = some o1 ∧
      o1.position = ⟨-999, -999⟩ ∧ o1.velocity = ⟨0, 0⟩ :=
  runOrbTicks_keepSentinel ticks hT orbs j o hj hpos hvel

/-- C8 witness: over one concrete quiet tick (delta 16, timer 100, one
horseman at (500, 300)), the collected orb stays at the sentinel with zero
velocity. -/
theorem collected_orb_stays_collected_witness :
    ∃ o1, (runOrbTicks [quietTick] [collectedOrb]).get? 0 = some o1 ∧
      o1.position = ⟨-999, -999⟩ ∧ o1.velocity = ⟨0, 0⟩ :=
  collected_orb_stays_collected [quietTick]
    (by
      intro t ht
      rw [List.mem_singleton] at ht
      subst ht
      norm_num [quietTick, ORB_RESPAWN_TIME])
    [collectedOrb] 0 collectedOrb rfl rfl rfl

/-- Helper: a horseman whose position is inside the playfield bounds is
always farther than the pickup radius from any sentinel-parked point (whose x
coordinate is −999): already the x distance alone is at least 1039. -/
theorem far_from_sentinel (p : Vec) (hb : inBounds p) (q : Vec) (hq : q.x = -999) :
    ¬ distSq p q < 42 ^ 2 := by
  unfold inBounds at hb
  unfold distSq
  rw [hq]
  push_neg
  have h1 : (1039 : ℚ) ≤ p.x - (-999) := by linarith [hb.1]
  nlinarith [sq_nonneg (p.y - q.y), h1]

/-- Helper: `countCollected` over a cons. -/
theorem countCollected_cons (o : Orb) (rest : List Orb) :
    countCollected (o :: rest)
      = countCollected rest + (if o.position.x = -999 then 1 else 0) := by
  unfold countCollected
  rw [List.countP_cons]
  by_cases h : o.position.x = -999 <;> simp [h]

/-- Helper: `sumScores` over a cons. -/
theorem sumScores_cons (h : Horseman) (hs : List Horseman) :
    sumScores (h :: hs) = h.score + sumScores hs := by
  unfold sumScores
  simp

/-- Helper: the pickup loop of one in-bounds horseman conserves score plus
collected count — every score increment coincides with exactly one orb
passing from uncollected to collected — and leaves already-collected orbs
untouched. -/
theorem collectOrbs_spec :
    ∀ (orbs : List Orb) (h : Horseman), inBounds h.position →
      (collectOrbs h orbs).1.position = h.position ∧
      (collectOrbs h orbs).1.score + countCollected orbs
        = h.score + countCollected (collectOrbs h orbs).2 ∧
      ∀ j o, orbs.get? j = some o → o.position.x = -999 →
        (collectOrbs h orbs).2.get? j = some o := by
  intro orbs
  induction orbs with
  | nil =>
      intro h hb
      refine ⟨rfl, rfl, ?_⟩
      intro j o hj _
      simp at hj
  | cons orb rest ih =>
      intro h hb
      simp only [collectOrbs]
      by_cases hd : distSq h.position orb.position < 42 ^ 2
      · have hno : ¬ orb.position.x = -999 := fun hq =>
          far_from_sentinel h.position hb orb.position hq hd
        rw [if_pos hd]
        dsimp only
        obtain ⟨hpos1, hcons1, hidx1⟩ := ih { h with score := h.score + 1 } hb
        refine ⟨hpos1, ?_, ?_⟩
        · rw [countCollected_cons, countCollected_cons, if_neg hno,
            if_pos (show (collectOrb orb).position.x = -999 from rfl)]
          have hsc : ({ h with score := h.score + 1 } : Horseman).score = h.score + 1 := rfl
          rw [hsc] at hcons1
          omega
        · intro j o hj hx
          cases j with
          | zero =>
              simp only [List.get?] at hj
              obtain rfl := Option.some.inj hj
              exact absurd hx hno
          | succ j =>
              simp only [List.get?] at hj
              simp only [List.get?]
              exact hidx1 j o hj hx
      · rw [if_neg hd]
        dsimp only
        obtain ⟨hpos1, hcons1, hidx1⟩ := ih h hb
        refine ⟨hpos1, ?_, ?_⟩
        · rw [countCollected_cons, countCollected_cons]
          by_cases hq : orb.position.x = -999
          · rw [if_pos hq]
            omega
          · rw [if_neg hq]
            omega
        · intro j o hj hx
          cases j with
          | zero =>
              simp only [List.get?] at hj
              simp only [List.get?]
              exact hj
          | succ j =>
              simp only [List.get?] at hj
              simp only [List.get?]
              exact hidx1 j o hj hx

/-- Helper: the whole pickup phase over in-bounds horsemen conserves total
score plus collected count and leaves already-collected orbs untouched. -/
theorem collectPhase_spec :
    ∀ (hs : List Horseman) (orbs : List Orb), (∀ h ∈ hs, inBounds h.position) →
      sumScores (collectPhase hs orbs).1 + countCollected orbs
        = sumScores hs + countCollected (collectPhase hs orbs).2 ∧
      ∀ j o, orbs.get? j = some o → o.position.x = -999 →
        (collectPhase hs orbs).2.get? j = some o := by
  intro hs
  induction hs with
  | nil =>
      intro orbs _
      exact ⟨rfl, fun j o hj _ => hj⟩
  | cons h rest ih =>
      intro orbs hb
      simp only [collectPhase]
      obtain ⟨hpos1, hcons1, hidx1⟩ :=
        collectOrbs_spec orbs h (hb h (List.mem_cons_self h rest))
      obtain ⟨hcons2, hidx2⟩ :=
        ih (collectOrbs h orbs).2 (fun h1 hh1 => hb h1 (List.mem_cons_of_mem h hh1))
      constructor
      · rw [sumScores_cons, sumScores_cons]
        omega
      · intro j o hj hx
        exact hidx2 j o (hidx1 j o hj hx) hx

/-- C2: for every tick and every orb, at most one horseman collects that orb
in that tick and an orb already marked collected contributes no further score
increments.  Formally, over the pickup phase run on in-bounds horsemen (the
state `updateHorsemen` always establishes before the phase runs, since it
clamps every position into the inset bounds): (a) the total score gained
equals the number
of orbs that newly became collected — each score increment is paid for by
exactly one orb flipping from uncollected to collected, so no orb can fund
two increments in one tick; and (b) an orb that enters the tick already
collected is returned untouched, funding no increment at all. -/
theorem orb_collect_at_most_once (hs : List Horseman) (orbs : List Orb)
    (hb : ∀ h ∈ hs, inBounds h.position) :
    sumScores (collectPhase hs orbs).1 + countCollected orbs
      = sumScores hs + countCollected (collectPhase hs orbs).2 ∧
    ∀ j o, orbs.get? j = some o → o.position.x = -999 →
      (collectPhase hs orbs).2.get? j = some o :=
  collectPhase_spec hs orbs hb

/-- C2 witness: the pickup phase of one in-bounds horseman over one
already-collected orb conserves score plus collected count and leaves the
collected orb untouched. -/
theorem orb_collect_at_most_once_witness :
    (sumScores (collectPhase [testHorseman] [collectedOrb]).1 + countCollected [collectedOrb]
      = sumScores [testHorseman] + countCollected (collectPhase [testHorseman] [collectedOrb]).2) ∧
    (collectPhase [testHorseman] [collectedOrb]).2.get? 0 = some collectedOrb :=
  ⟨(orb_collect_at_most_once [testHorseman] [collectedOrb]
      (by
        intro h hh
        rw [List.mem_singleton] at hh
        subst hh
        norm_num [inBounds, testHorseman])).1,
   (orb_collect_at_most_once [testHorseman] [collectedOrb]
      (by
        intro h hh
        rw [List.mem_singleton] at hh
        subst hh
        norm_num [inBounds, testHorseman])).2 0 collectedOrb rfl rfl⟩

/-- Helper: `randomRange lo hi u` lands in `[lo, hi)` when `u ∈ [0, 1)` and
`lo < hi`. -/
theorem randomRange_mem (lo hi u : ℚ) (hlh : lo < hi) (hu0 : 0 ≤ u) (hu1 : u < 1) :
    lo ≤ randomRange lo hi u ∧ randomRange lo hi u < hi := by
  unfold randomRange
  constructor
  · nlinarith
  · nlinarith [mul_pos (by linarith : (0:ℚ) < 1 - u) (by linarith : (0:ℚ) < hi - lo)]

/-- Helper: the respawn sweep rewrites index `j` of the orb list with
`respawnOrb` fed by the oracle entry `i + j`. -/
theorem respawnSweep_get (rand : ℕ → Rand4) :
    ∀ (orbs : List Orb) (i j : ℕ) (o : Orb), orbs.get? j = some o →
      (respawnSweep rand i orbs).get? j = some (respawnOrb (rand (i + j)) o) := by
  intro orbs
  induction orbs with
  | nil =>
      intro i j o hj
      simp at hj
  | cons orb rest ih =>
      intro i j o hj
      cases j with
      | zero =>
          simp only [List.get?] at hj
          obtain rfl := Option.some.inj hj
          simp [respawnSweep]
      | succ j =>
          simp only [List.get?] at hj
          simp only [respawnSweep, List.get?]
          rw [ih (i + 1) j o hj]
          have harg : i + 1 + j = i + (j + 1) := by omega
          rw [harg]

/-- C3: respawn is batched.  When the accumulated respawn timer exceeds
12000 ms, the tick reassigns every currently-collected orb (sentinel
position, zero velocity — however many ticks ago each was collected) a new
random position inside `[80, 880) × [80, 400)` (within the playfield) and a
new random velocity inside `[-0.5, 0.5) × [-0.4, 0.4)`, all in that same
tick, and the returned timer is 0.  In particular two orbs collected at
different times before the same threshold crossing both respawn at this
tick. -/
theorem respawn_batched (delta orbTimer : ℚ) (hs : List Horseman) (orbs : List Orb)
    (rand : ℕ → Rand4) (ht : ORB_RESPAWN_TIME < orbTimer)
    (hrand : ∀ i, unitRand (rand i)) :
    (updateOrbs delta orbTimer hs orbs rand).2.2 = 0 ∧
    ∀ j o, orbs.get? j = some o → o.position = ⟨-999, -999⟩ → o.velocity = ⟨0, 0⟩ →
      ∃ o1, (updateOrbs delta orbTimer hs orbs rand).2.1.get? j = some o1 ∧
        80 ≤ o1.position.x ∧ o1.position.x < 880 ∧
        80 ≤ o1.position.y ∧ o1.position.y < 400 ∧
        -0.5 ≤ o1.velocity.x ∧ o1.velocity.x < 0.5 ∧
        -0.4 ≤ o1.velocity.y ∧ o1.velocity.y < 0.4 := by
  unfold updateOrbs
  rw [if_pos ht]
  dsimp only
  refine ⟨rfl, ?_⟩
  intro j o hj hpos hvel
  have h1 : (orbs.map (orbMove delta)).get? j = some (orbMove delta o) := by
    rw [List.get?_map, hj]
    rfl
  obtain ⟨hp1, hv1⟩ := orbMove_sentinel delta o hpos hvel
  obtain ⟨o2, ho2, hp2, hv2⟩ := collectPhase_keepSentinel hs _ j _ h1 hp1 hv1
  have h3 : (respawnSweep rand 0 (collectPhase hs (orbs.map (orbMove delta))).2).get? j
      = some (respawnOrb (rand j) o2) := by
    have := respawnSweep_get rand _ 0 j o2 ho2
    simpa using this
  refine ⟨respawnOrb (rand j) o2, h3, ?_⟩
  obtain ⟨hux0, hux1, huy0, huy1, hvx0, hvx1, hvy0, hvy1⟩ := hrand j
  unfold respawnOrb
  rw [if_pos (by rw [hp2] : o2.position.x = -999)]
  dsimp only
  have hbx := randomRange_mem 80 (CANVAS_WIDTH - 80) (rand j).ux
    (by norm_num [CANVAS_WIDTH]) hux0 hux1
  have hby := randomRange_mem 80 (CANVAS_HEIGHT - 160) (rand j).uy
    (by norm_num [CANVAS_HEIGHT]) huy0 huy1
  have hbvx := randomRange_mem (-0.5) 0.5 (rand j).uvx (by norm_num) hvx0 hvx1
  have hbvy := randomRange_mem (-0.4) 0.4 (rand j).uvy (by norm_num) hvy0 hvy1
  norm_num [CANVAS_WIDTH, CANVAS_HEIGHT] at hbx hby hbvx hbvy ⊢
  exact ⟨hbx.1, hbx.2, hby.1, hby.2, hbvx.1, hbvx.2, hbvy.1, hbvy.2⟩

/-- C3 witness: a tick with timer 12001 ms respawns the single collected orb
into the playfield bounds and resets the timer to 0. -/
theorem respawn_batched_witness :
    (updateOrbs 16 12001 [] [collectedOrb] (fun _ => halfRand)).2.2 = 0 ∧
    ∃ o1, (updateOrbs 16 12001 [] [collectedOrb] (fun _ => halfRand)).2.1.get? 0 = some o1 ∧
      80 ≤ o1.position.x ∧ o1.position.x < 880 ∧
      80 ≤ o1.position.y ∧ o1.position.y < 400 ∧
      -0.5 ≤ o1.velocity.x ∧ o1.velocity.x < 0.5 ∧
      -0.4 ≤ o1.velocity.y ∧ o1.velocity.y < 0.4 :=
  ⟨(respawn_batched 16 12001 [] [collectedOrb] (fun _ => halfRand)
      (by norm_num [ORB_RESPAWN_TIME])
      (by intro i; norm_num [unitRand, halfRand])).1,
   (respawn_batched 16 12001 [] [collectedOrb] (fun _ => halfRand)
      (by norm_num [ORB_RESPAWN_TIME])
      (by intro i; norm_num [unitRand, halfRand])).2 0 collectedOrb rfl rfl rfl⟩

/-- Helper: on a single-agent list with active index 0, `updateHorsemen` is
exactly `tickActive`. -/
theorem updateHorsemen_singleton (delta : ℚ) (keys : Keys) (w : ℕ → ℚ) (h : Horseman) :
    updateHorsemen delta 0 keys w [h] = [tickActive delta keys h] := rfl

/-- Helper: the C7 trajectory iterates `tickActive`. -/
theorem rightSeq_iterate :
    ∀ n, (fun hs => updateHorsemen 16 0 rightOnly (fun _ => 0) hs)^[n] [horse0]
      = [(tickActive 16 rightOnly)^[n] horse0] := by
  intro n
  induction n with
  | zero => rfl
  | succ n ih =>
      rw [Function.iterate_succ_apply', Function.iterate_succ_apply', ih]
      exact updateHorsemen_singleton 16 rightOnly (fun _ => 0) _

/-- Helper: closed form of `rightSeq`. -/
theorem rightSeq_eq (n : ℕ) : rightSeq n = (tickActive 16 rightOnly)^[n] horse0 := by
  unfold rightSeq
  rw [rightSeq_iterate]
  rfl

/-- Helper: the C7 trajectory starts at `horse0`. -/
theorem rightSeq_zero : rightSeq 0 = horse0 := by
  rw [rightSeq_eq]
  rfl

/-- Helper: one step of the C7 trajectory. -/
theorem rightSeq_succ (n : ℕ) : rightSeq (n + 1) = tickActive 16 rightOnly (rightSeq n) := by
  rw [rightSeq_eq, rightSeq_eq, Function.iterate_succ_apply']

/-- Helper: evaluation of `integrateAgent` at delta 16 on a state with
non-negative x velocity, zero y velocity, y = 280 and x ≥ 500: y is
untouched, and the x axis either advances by the clamped velocity or hits the
right wall (clamp to 920 and reflect). -/
theorem integrate16_eval (g : Horseman) (hvx0 : 0 ≤ g.velocity.x)
    (hvy : g.velocity.y = 0) (hy : g.position.y = 280) (hx : 500 ≤ g.position.x) :
    (integrateAgent 16 g).position.y = 280 ∧
    (integrateAgent 16 g).velocity.y = 0 ∧
    (integrateAgent 16 g).position.x =
      (if g.position.x + min g.velocity.x 7.4 > 920 then (920:ℚ)
       else g.position.x + min g.velocity.x 7.4) ∧
    (integrateAgent 16 g).velocity.x =
      (if g.position.x + min g.velocity.x 7.4 > 920
       then min g.velocity.x 7.4 * 0.985 * (-0.7)
       else min g.velocity.x 7.4 * 0.985) := by
  have hmin0 : (0:ℚ) ≤ min g.velocity.x 7.4 := le_min hvx0 (by norm_num)
  have hcx : clamp g.velocity.x (-HORSEMAN_MAX_SPEED) HORSEMAN_MAX_SPEED
      = min g.velocity.x 7.4 := by
    unfold clamp HORSEMAN_MAX_SPEED
    rw [max_eq_left (by linarith : -(7.4:ℚ) ≤ g.velocity.x)]
  have hcy : clamp g.velocity.y (-HORSEMAN_MAX_SPEED) HORSEMAN_MAX_SPEED = 0 := by
    unfold clamp HORSEMAN_MAX_SPEED
    rw [hvy, max_eq_left (by norm_num : -(7.4:ℚ) ≤ 0),
      min_eq_left (by norm_num : (0:ℚ) ≤ 7.4)]
  have hm0 : (0:ℚ) ≤ min g.velocity.x (37/5) := le_min hvx0 (by norm_num)
  simp only [integrateAgent, hcx, hcy, hy, HORSEMAN_FRICTION, CANVAS_WIDTH, CANVAS_HEIGHT]
  norm_num
  have hceq : (g.position.x + min g.velocity.x (37/5) < 40 ∨
      920 < g.position.x + min g.velocity.x (37/5))
      ↔ 920 < g.position.x + min g.velocity.x (37/5) := by
    constructor
    · rintro (hlt | hgt)
      · exact absurd hlt (by push_neg; linarith)
      · exact hgt
    · exact Or.inr
  constructor
  · split_ifs with h1 h2 h3
    · unfold clamp
      rw [max_eq_left (by linarith : (40:ℚ) ≤ g.position.x + min g.velocity.x (37/5)),
        min_eq_right (by linarith : (920:ℚ) ≤ g.position.x + min g.velocity.x (37/5))]
    · exact absurd (hceq.mp h1) h2
    · exact absurd (hceq.mpr h3) h1
    · rfl
  · split_ifs with h1 h2 h3
    · rfl
    · exact absurd (hceq.mp h1) h2
    · exact absurd (hceq.mpr h3) h1
    · rfl

/-- Helper: the steering input with only the right arrow held adds exactly
the base acceleration 0.24 to the x velocity and leaves the y velocity and
the position alone. -/
theorem applyRight_eval (h : Horseman) :
    (applyActiveInput rightOnly h).position = h.position ∧
    (applyActiveInput rightOnly h).velocity.x = h.velocity.x + 0.24 ∧
    (applyActiveInput rightOnly h).velocity.y = h.velocity.y := by
  unfold applyActiveInput rightOnly HORSEMAN_ACCEL
  norm_num

/-- Helper: evaluation of one full active tick of the C7 scenario. -/
theorem tickRight_eval (h : Horseman) (hvx0 : 0 ≤ h.velocity.x)
    (hvy : h.velocity.y = 0) (hy : h.position.y = 280) (hx : 500 ≤ h.position.x) :
    (tickActive 16 rightOnly h).position.y = 280 ∧
    (tickActive 16 rightOnly h).velocity.y = 0 ∧
    (tickActive 16 rightOnly h).position.x =
      (if h.position.x + min (h.velocity.x + 0.24) 7.4 > 920 then (920:ℚ)
       else h.position.x + min (h.velocity.x + 0.24) 7.4) ∧
    (tickActive 16 rightOnly h).velocity.x =
      (if h.position.x + min (h.velocity.x + 0.24) 7.4 > 920
       then min (h.velocity.x + 0.24) 7.4 * 0.985 * (-0.7)
       else min (h.velocity.x + 0.24) 7.4 * 0.985) := by
  obtain ⟨hap, hav, havy⟩ := applyRight_eval h
  unfold tickActive
  obtain ⟨e1, e2, e3, e4⟩ := integrate16_eval (applyActiveInput rightOnly h)
    (by rw [hav]; linarith) (by rw [havy, hvy]) (by rw [hap, hy]) (by rw [hap]; exact hx)
  rw [hap, hav] at e3 e4
  exact ⟨e1, e2, e3, e4⟩

/-- Helper: invariant of the C7 trajectory while it has stayed strictly left
of the wall: the x velocity is in [0, 7.289], the y axis is frozen at 280
with zero velocity, and x never drops below its start 500. -/
theorem rightSeq_inv (n : ℕ) (hg : ∀ k, k ≤ n → (rightSeq k).position.x < 920) :
    0 ≤ (rightSeq n).velocity.x ∧ (rightSeq n).velocity.x ≤ 7.289 ∧
    (rightSeq n).velocity.y = 0 ∧ (rightSeq n).position.y = 280 ∧
    500 ≤ (rightSeq n).position.x := by
  induction n with
  | zero =>
      rw [rightSeq_zero]
      norm_num [horse0]
  | succ n ih =>
      have hgn : ∀ k, k ≤ n → (rightSeq k).position.x < 920 := fun k hk => hg k (by omega)
      obtain ⟨hv0, hv1, hvy, hy, hx⟩ := ih hgn
      obtain ⟨hpy, hvy2, hpx, hvx⟩ := tickRight_eval (rightSeq n) hv0 hvy hy hx
      rw [← rightSeq_succ n] at hpy hvy2 hpx hvx
      by_cases hw : (rightSeq n).position.x + min ((rightSeq n).velocity.x + 0.24) 7.4 > 920
      · rw [if_pos hw] at hpx
        have hcontra := hg (n + 1) (le_refl _)
        rw [hpx] at hcontra
        norm_num at hcontra
      · rw [if_neg hw] at hpx hvx
        push_neg at hw
        have hminL : (0.24:ℚ) ≤ min ((rightSeq n).velocity.x + 0.24) 7.4 :=
          le_min (by linarith) (by norm_num)
        have hminU : min ((rightSeq n).velocity.x + 0.24) 7.4 ≤ 7.4 := min_le_right _ _
        refine ⟨?_, ?_, hvy2, hpy, ?_⟩
        · rw [hvx]
          linarith
        · rw [hvx]
          linarith
        · rw [hpx]
          linarith

/-- C7: in the scenario of a controlled agent starting at (500, 280) with
zero velocity and only the right arrow held, ticking at delta = 16 ms:
velocity.x never exceeds the max speed 7.4 on any tick, and on every tick of
the approach — while the trajectory through the next state stays strictly
left of the wall x = 920 (canvas width minus the 40-unit margin) —
velocity.x is monotone non-decreasing toward the max and position.x strictly
increases. -/
theorem right_scenario_monotone (n : ℕ) :
    (rightSeq n).velocity.x ≤ 7.4 ∧
    ((∀ k, k ≤ n + 1 → (rightSeq k).position.x < 920) →
      (rightSeq n).velocity.x ≤ (rightSeq (n + 1)).velocity.x ∧
      (rightSeq n).position.x < (rightSeq (n + 1)).position.x) := by
  constructor
  · cases n with
    | zero =>
        rw [rightSeq_zero]
        norm_num [horse0]
    | succ n =>
        have h74 : |(rightSeq (n + 1)).velocity.x| ≤ 7.4 := by
          rw [rightSeq_succ n]
          exact (integrateAgent_vel_bound 16 _).1
        exact le_trans (le_abs_self _) h74
  · intro hg
    have hgn : ∀ k, k ≤ n → (rightSeq k).position.x < 920 := fun k hk => hg k (by omega)
    obtain ⟨hv0, hv1, hvy, hy, hx⟩ := rightSeq_inv n hgn
    obtain ⟨hpy, hvy2, hpx, hvx⟩ := tickRight_eval (rightSeq n) hv0 hvy hy hx
    rw [← rightSeq_succ n] at hpy hvy2 hpx hvx
    by_cases hw : (rightSeq n).position.x + min ((rightSeq n).velocity.x + 0.24) 7.4 > 920
    · rw [if_pos hw] at hpx
      have hcontra := hg (n + 1) (le_refl _)
      rw [hpx] at hcontra
      norm_num at hcontra
    · rw [if_neg hw] at hpx hvx
      constructor
      · rw [hvx]
        rcases min_cases ((rightSeq n).velocity.x + 0.24) (7.4:ℚ) with ⟨hmeq, hmle⟩ | ⟨hmeq, hmle⟩
        · rw [hmeq]
          linarith
        · rw [hmeq]
          linarith
      · rw [hpx]
        have hminL : (0.24:ℚ) ≤ min ((rightSeq n).velocity.x + 0.24) 7.4 :=
          le_min (by linarith) (by norm_num)
        linarith

/-- C7 witness: on the first tick the velocity rises from 0 (staying below
7.4) and the position advances from 500. -/
theorem right_scenario_monotone_witness :
    (rightSeq 0).velocity.x ≤ 7.4 ∧
    ((rightSeq 0).velocity.x ≤ (rightSeq 1).velocity.x ∧
      (rightSeq 0).position.x < (rightSeq 1).position.x) :=
  ⟨(right_scenario_monotone 0).1,
   (right_scenario_monotone 0).2 (by
      intro k hk
      obtain ⟨hpy, hvy2, hpx, hvx⟩ := tickRight_eval horse0 (by norm_num [horse0])
        (by norm_num [horse0]) (by norm_num [horse0]) (by norm_num [horse0])
      have hm : min (horse0.velocity.x + 0.24) 7.4 = 0.24 := by
        rw [min_eq_left (by norm_num [horse0])]
        norm_num [horse0]
      rw [hm] at hpx
      rw [if_neg (by norm_num [horse0])] at hpx
      interval_cases k
      · rw [rightSeq_zero]
        norm_num [horse0]
      · rw [rightSeq_succ 0, rightSeq_zero, hpx]
        norm_num [horse0])⟩

end FlyingHorse
